import Mathlib

/-!
# Verification of the mompy moment-relaxation notebook specification

The repository consists of the notebook `polynomial_optimization.ipynb`, a thin
client of the `mompy` moment-problem library (`mp.solvers.solve_GMP`,
`mp.extractors.extract_solutions_lasserre`).  The library's own source is not
part of the repository snapshot, so the components the claims speak about
(monomial basis builder, moment-matrix assembler, relaxation driver, solution
extractor) are modelled here from the specification's words, and the concrete
numeric facts are checked against the runs recorded in the notebook's output
cells.
-/

namespace Mompy

/-- Error kinds of the moment-relaxation engine (spec §7). -/
inductive MomError where
  | InvalidDegree
  | DegreeMismatch
  | SolverInfeasible
  | SolverNumericalWarning
  | InsufficientRank
  deriving DecidableEq, Repr

/-- An exponent-tuple: one non-negative exponent per variable. -/
abbrev Mon := List Nat

/-- A polynomial as a list of (coefficient, exponent-tuple) terms (spec §3). -/
abbrev Poly := List (ℚ × Mon)

/-- Modelled from the spec: the monomial basis builder's core enumeration
(the `mompy` basis construction is not under `src/`).  `expTuples d k` lists,
in a fixed deterministic order, every exponent-tuple of `d` non-negative
integers whose total degree is at most `k`: the first coordinate `e` ranges
over `0..k` and the remaining `d - 1` coordinates form a tuple of total degree
at most `k - e`. -/
def expTuples : Nat → Nat → List Mon
  | 0, _ => [[]]
  | d + 1, k => (List.range (k + 1)).flatMap fun e =>
      (expTuples d (k - e)).map fun t => e :: t

/-- Modelled from the spec: the monomial basis builder's entry point
(spec §4.2), taking the variable count `d` and maximum degree `k` as integers
and failing with `InvalidDegree` when `k < 0` or `d ≤ 0`. -/
def monomialBasis (d k : Int) : Except MomError (List Mon) :=
  if k < 0 ∨ d ≤ 0 then .error .InvalidDegree
  else .ok (expTuples d.toNat k.toNat)

/-- The product of two monomials: exponentwise sum. -/
def monMul (a b : Mon) : Mon := List.zipWith (· + ·) a b

/-- Modelled from the spec: every monomial product appearing as a cell of the
moment matrix over `basis` (cell `(i,j)` holds the moment of
`basis_i * basis_j`, spec §3). -/
def momentProducts (basis : List Mon) : List Mon :=
  basis.flatMap fun a => basis.map fun b => monMul a b

/-- Modelled from the spec: every monomial appearing in a localizing-matrix
cell of constraint `g` — each term-monomial of `g` times a product of two
basis monomials (spec §4.3). -/
def locProducts (basis : List Mon) (g : Poly) : List Mon :=
  g.flatMap fun c => (momentProducts basis).map fun m => monMul c.2 m

/-- Modelled from the spec: the pool of decision variables of the assembled
SDP — one shared variable per *distinct* moment monomial needed by the moment
matrix or by any localizing matrix (spec §4.3's consolidation requirement). -/
def varPool (basis : List Mon) (gs : List Poly) : List Mon :=
  (momentProducts basis ++ gs.flatMap (locProducts basis)).dedup

/-- A cell of the assembled relaxation: either a cell of the moment matrix
(given by its two indexing basis monomials) or one term of a localizing-matrix
cell (given additionally by the constraint-term monomial `c`). -/
inductive Cell where
  | moment (a b : Mon)
  | localizing (c a b : Mon)
  deriving DecidableEq, Repr

/-- The moment monomial a cell refers to. -/
def cellMonomial : Cell → Mon
  | .moment a b => monMul a b
  | .localizing c a b => monMul c (monMul a b)

/-- The decision variable a cell is wired to: the index of its moment monomial
in the consolidated pool. -/
def cellVar (basis : List Mon) (gs : List Poly) (cell : Cell) : Nat :=
  @List.indexOf Mon instBEqOfDecidableEq (cellMonomial cell) (varPool basis gs)

/-- A cell that actually occurs in the relaxation assembled from `basis` and
the inequality constraints `gs`. -/
def WFCell (basis : List Mon) (gs : List Poly) : Cell → Prop
  | .moment a b => a ∈ basis ∧ b ∈ basis
  | .localizing c a b => (∃ g ∈ gs, ∃ t ∈ g, t.2 = c) ∧ a ∈ basis ∧ b ∈ basis

/-- A linear equality constraint of the SDP over the moment decision
variables: `∑ coeff · y_monomial = rhs`. -/
structure LinEq where
  lhs : List (ℚ × Mon)
  rhs : ℚ
  deriving DecidableEq, Repr

/-- Modelled from the spec: the normalization condition — the zero-degree
moment (of the constant monomial in `d` variables) equals 1 (spec §4.3 (c)). -/
def normalizationEq (d : Nat) : LinEq :=
  { lhs := [(1, List.replicate d 0)], rhs := 1 }

/-- Modelled from the spec: the linear equality derived from a
moment-equality constraint `L(h(x)) = 0`. -/
def momentEqualityEq (h : Poly) : LinEq := { lhs := h, rhs := 0 }

/-- Modelled from the spec: the list of linear equality constraints the
assembler produces — the normalization condition together with one equality
per moment-equality constraint (spec §4.3 (c)). -/
def assembleEqualities (d : Nat) (hs : List Poly) : List LinEq :=
  normalizationEq d :: hs.map momentEqualityEq

/-- Status flag returned by the external SDP solver (spec §6). -/
inductive SolverStatus where
  | optimal
  | infeasible
  | unbounded
  | unknown
  deriving DecidableEq, Repr

/-- Phases of the relaxation driver's state machine (spec §4.4). -/
inductive Phase where
  | INIT
  | ASSEMBLING
  | SOLVING
  | CHECKING
  | CONVERGED
  | ESCALATING
  | EXHAUSTED
  | INFEASIBLE
  deriving DecidableEq, Repr

/-- The moment matrix handed around by driver and extractor, abstracted by the
data the extractor reads from it: the number of variables, the relaxation
degree, and the moment value of each monomial. -/
structure MomentMatrix where
  nvars : Nat
  relaxDegree : Nat
  moment : Mon → ℚ

/-- Modelled from the spec: the external SDP solver as a black box (spec §6):
for the degree it is invoked at it yields a status, a primal moment matrix,
and whether the driver's rank condition holds. -/
structure Oracle where
  status : Nat → SolverStatus
  matrix : Nat → MomentMatrix
  rankOk : Nat → Bool

/-- Driver configuration: the round budget. -/
structure DriverConfig where
  maxRounds : Nat

/-- The relaxation state owned by the driver (spec §3): phase, rounds
completed, current basis degree, last solver status, convergence flag and the
most recent moment matrix. -/
structure DriverState where
  phase : Phase
  round : Nat
  degree : Nat
  lastStatus : Option SolverStatus
  converged : Bool
  MM : Option MomentMatrix

/-- Modelled from the spec: one transition of the driver state machine
(spec §4.4).  `INFEASIBLE`, `CONVERGED` and `EXHAUSTED` are terminal.  A
solve that returns `infeasible` is terminal; `unbounded`/`unknown` escalate
while rounds remain and otherwise exhaust the budget; `optimal` proceeds to
the rank check. -/
def step (cfg : DriverConfig) (o : Oracle) (s : DriverState) : DriverState :=
  match s.phase with
  | .INIT => { s with phase := .ASSEMBLING }
  | .ASSEMBLING => { s with phase := .SOLVING }
  | .SOLVING =>
    match o.status s.degree with
    | .infeasible =>
      { s with
        phase := .INFEASIBLE, lastStatus := some SolverStatus.infeasible,
        round := s.round + 1, MM := some (o.matrix s.degree) }
    | .optimal =>
      { s with
        phase := .CHECKING, lastStatus := some SolverStatus.optimal,
        round := s.round + 1, MM := some (o.matrix s.degree) }
    | .unbounded =>
      if s.round + 1 < cfg.maxRounds then
        { s with
          phase := .ESCALATING, lastStatus := some SolverStatus.unbounded,
          round := s.round + 1, MM := some (o.matrix s.degree) }
      else
        { s with
          phase := .EXHAUSTED, lastStatus := some SolverStatus.unbounded,
          round := s.round + 1, converged := false,
          MM := some (o.matrix s.degree) }
    | .unknown =>
      if s.round + 1 < cfg.maxRounds then
        { s with
          phase := .ESCALATING, lastStatus := some SolverStatus.unknown,
          round := s.round + 1, MM := some (o.matrix s.degree) }
      else
        { s with
          phase := .EXHAUSTED, lastStatus := some SolverStatus.unknown,
          round := s.round + 1, converged := false,
          MM := some (o.matrix s.degree) }
  | .CHECKING =>
    if o.rankOk s.degree = true ∧ 1 ≤ s.round then
      { s with phase := .CONVERGED, converged := true }
    else if s.round < cfg.maxRounds then
      { s with phase := .ESCALATING }
    else
      { s with phase := .EXHAUSTED, converged := false }
  | .ESCALATING => { s with phase := .ASSEMBLING, degree := s.degree + 1 }
  | .CONVERGED => s
  | .EXHAUSTED => s
  | .INFEASIBLE => s

/-- Iterate the driver's transition function. -/
def runDriver (cfg : DriverConfig) (o : Oracle) : Nat → DriverState → DriverState
  | 0, s => s
  | fuel + 1, s => runDriver cfg o fuel (step cfg o s)

/-- The driver's initial state at starting degree `d0` (spec §4.4 `INIT`). -/
def initState (d0 : Nat) : DriverState :=
  { phase := .INIT, round := 0, degree := d0, lastStatus := none,
    converged := false, MM := none }

/-- The state in which the driver terminates for a round budget `rounds`
(enough fuel for `rounds` escalations). -/
def finalDriverState (o : Oracle) (d0 rounds : Nat) : DriverState :=
  runDriver ⟨rounds⟩ o (4 * rounds + 4) (initState d0)

/-- A value of the solution mapping returned by `solve_GMP`. -/
inductive SolValue where
  | matrix (M : MomentMatrix)
  | vars (xs : List String)

/-- Modelled from the spec and the notebook call sites: `solve_GMP` runs the
relaxation driver (round budget defaulting to 1) and returns a mapping holding
the final round's moment matrix under key `MM` and the ordered problem
variables under key `x`, exactly the two values the notebook feeds to
`extract_solutions_lasserre`. -/
def solve_GMP (o : Oracle) (d0 : Nat) (xs : List String)
    (rounds : optParam Nat 1) : List (String × SolValue) :=
  [("MM", .matrix ((finalDriverState o d0 rounds).MM.getD (o.matrix d0))),
   ("x", .vars xs)]

/-- Subtract a multiple of the pivot row `p` from row `r` so that the leading
entry of the result vanishes. -/
def reduceRow (p r : List ℚ) : List ℚ :=
  List.zipWith (fun a b => b - (r.headD 0 / p.headD 0) * a) p r

/-- Whether an entry exceeds the tolerance in magnitude. -/
def bigEnough (tol x : ℚ) : Bool := decide (tol < x) || decide (x < -tol)

/-- Gaussian-elimination rank over ℚ, counting pivots whose magnitude exceeds
the tolerance (the exact-arithmetic rendering of spec §4.5 step 2's
"count singular values above a tolerance"): recurse column by column. -/
def qRankAux (tol : ℚ) : Nat → List (List ℚ) → Nat
  | 0, _ => 0
  | c + 1, rows =>
    match rows.filter (fun r => bigEnough tol (r.headD 0)) with
    | [] => qRankAux tol c (rows.map List.tail)
    | p :: rest =>
      1 + qRankAux tol c
        ((rows.filter (fun r => ! bigEnough tol (r.headD 0)) ++
          rest.map (reduceRow p)).map List.tail)

/-- Rank of a matrix given as a list of rows. -/
def qRank (tol : ℚ) (rows : List (List ℚ)) : Nat :=
  qRankAux tol (rows.headD []).length rows

/-- The moment matrix restricted to the sub-basis of degree at most `t`
(spec §4.5 step 1). -/
def restrictedMM (M : MomentMatrix) (t : Nat) : List (List ℚ) :=
  (expTuples M.nvars t).map fun a =>
    (expTuples M.nvars t).map fun b => M.moment (monMul a b)

/-- The exponent-tuple of the single variable `i` among `d` variables. -/
def unitTuple (d i : Nat) : Mon := (List.replicate d 0).set i 1

/-- The result of an extraction: the numerical rank `r` (number of recovered
atoms) and, per variable, the ordered sequence of recovered coordinates. -/
structure ExtractResult where
  rank : Nat
  coords : Option (List (String × List ℚ))
  deriving DecidableEq, Repr

/-- Modelled from the spec: the coordinate-recovery step (spec §4.5 steps
3-5).  The simultaneous diagonalization of the multiplication matrices has an
exact-arithmetic closed form only in the rank-one case, where the single atom
is read off as `y_{x_i} / y_1`; for higher rank the model leaves the
coordinates undetermined. -/
def extractCoords (M : MomentMatrix) (xs : List String) (r : Nat) :
    Option (List (String × List ℚ)) :=
  if r = 1 then
    some ((List.range xs.length).map fun i =>
      (xs.getD i "",
        [M.moment (unitTuple M.nvars i) / M.moment (List.replicate M.nvars 0)]))
  else none

/-- Modelled from the spec: the solution extractor (spec §4.5).  It is a pure
function of the moment matrix, the ordered variable list, the requested
degree `t`, the optional maximum basis degree and the tolerance.  A request
with `t` greater than half the relaxation degree fails with
`InsufficientRank`; otherwise the matrix is restricted to degree
`min t maxdeg`, its rank is computed, and the atoms are recovered. -/
def extract_solutions_lasserre (M : MomentMatrix) (xs : List String) (t : Nat)
    (maxdeg : Option Nat) (tol : ℚ) : Except MomError ExtractResult :=
  if M.relaxDegree / 2 < t then .error .InsufficientRank
  else
    .ok { rank := qRank tol (restrictedMM M (min t (maxdeg.getD t))),
          coords := extractCoords M xs
            (qRank tol (restrictedMM M (min t (maxdeg.getD t)))) }

/-- One structured progress record of a relaxation round, as printed by the
notebook (`round=…, rank=…, size=…, obj=…` together with the solver status
line). -/
structure RoundRecord where
  round : Nat
  rank : Nat
  size : Nat
  status : SolverStatus
  obj : ℚ

/-- The progress record of round 1 of the notebook's first example
(minimize `x² + y²` subject to `x + y ≥ 4` and `x + y ≤ 4`), transcribed from
the notebook's output cell: `status: optimal`, `round=1, rank=1, size=3,
obj=8.000`. -/
def firstExampleRound1 : RoundRecord :=
  { round := 1, rank := 1, size := 3, status := .optimal, obj := 8 }

/-- The coordinates the notebook's first example run extracted:
`{x: array([ 1.99999971]), y: array([ 1.99999971])}`. -/
def firstExampleXY : ℚ × ℚ := (199999971 / 100000000, 199999971 / 100000000)

/-- The exact optimal moment matrix of the first example's degree-2
relaxation: the moments of the Dirac measure at the unique minimizer `(2,2)`,
so the moment of `x^a y^b` is `2^(a+b)`. -/
def firstExampleMM : MomentMatrix :=
  { nvars := 2, relaxDegree := 2, moment := fun m => 2 ^ m.sum }

/-- A constant-status oracle used to instantiate driver theorems on concrete
inputs. -/
def constOracle (st : SolverStatus) : Oracle :=
  { status := fun _ => st, matrix := fun _ => firstExampleMM,
    rankOk := fun _ => true }

/-- A concrete mid-run driver state (about to solve at degree 2) used to
instantiate the transition theorem. -/
def solvingState : DriverState :=
  { phase := .SOLVING, round := 0, degree := 2, lastStatus := none,
    converged := false, MM := none }

theorem expTuples_length (d k : Nat) :
    (expTuples d k).length = Nat.choose (d + k) k := by
  induction d generalizing k with
  | zero => simp [expTuples]
  | succ d ih =>
    rw [expTuples, List.length_flatMap]
    have h0 : List.length ∘ (fun e => (expTuples d (k - e)).map fun t => e :: t)
        = fun e => (expTuples d (k - e)).length := by
      funext e; simp
    rw [h0]
    have h1 : ((List.range (k + 1)).map fun e => (expTuples d (k - e)).length).sum
        = ∑ e ∈ Finset.range (k + 1), (expTuples d (k - e)).length := rfl
    rw [h1]
    have h2 : ∀ e ∈ Finset.range (k + 1),
        (expTuples d (k - e)).length = ((k - e) + d).choose d := by
      intro e _
      rw [ih (k - e)]
      have h := Nat.choose_symm (Nat.le_add_right d (k - e))
      simpa [Nat.add_comm] using h
    rw [Finset.sum_congr rfl h2]
    have h3 : ∑ e ∈ Finset.range (k + 1), ((k - e) + d).choose d
        = ∑ j ∈ Finset.range (k + 1), (j + d).choose d := by
      rw [← Finset.sum_range_reflect]
      refine Finset.sum_congr rfl ?_
      intro j hj
      simp only [Finset.mem_range] at hj
      congr 1
      omega
    rw [h3, Nat.sum_range_add_choose k d]
    have h4 : (k + d + 1).choose (d + 1) = (d + 1 + k).choose (d + 1) := by
      congr 1; omega
    rw [h4, ← Nat.choose_symm (Nat.le_add_right (d + 1) k)]
    congr 1
    omega

theorem mem_expTuples {d k : Nat} {t : Mon} (h : t ∈ expTuples d k) :
    t.length = d ∧ t.sum ≤ k := by
  induction d generalizing k t with
  | zero =>
    simp only [expTuples, List.mem_singleton] at h
    subst h; simp
  | succ d ih =>
    rw [expTuples] at h
    simp only [List.mem_flatMap, List.mem_map, List.mem_range] at h
    obtain ⟨e, he, s, hs, rfl⟩ := h
    obtain ⟨hl, hsum⟩ := ih hs
    refine ⟨by simp [hl], ?_⟩
    simp only [List.sum_cons]
    omega

theorem expTuples_nodup (d k : Nat) : (expTuples d k).Nodup := by
  induction d generalizing k with
  | zero => simp [expTuples]
  | succ d ih =>
    rw [expTuples, List.nodup_flatMap]
    constructor
    · intro e _
      exact (ih (k - e)).map fun a b hab => by simpa using hab
    · refine (List.nodup_range (k + 1)).imp ?_
      intro a b hab t hta htb
      simp only [List.mem_map] at hta htb
      obtain ⟨s, _, rfl⟩ := hta
      obtain ⟨s', _, heq⟩ := htb
      cases heq
      exact hab rfl

/-- **C1**: for every degree bound `k ≥ 0` and variable count `d ≥ 1` the
monomial basis builder succeeds and returns an ordered list of exactly
`C(d + k, k)` distinct exponent-tuples, each of length `d` and total degree
at most `k`, with no duplicates; and any further call returns the very same
list (determinism / stability). -/
theorem monomialBasis_spec (d k : Int) (hd : 1 ≤ d) (hk : 0 ≤ k) :
    ∃ l : List Mon,
      monomialBasis d k = .ok l ∧
      l.length = Nat.choose (d.toNat + k.toNat) k.toNat ∧
      l.Nodup ∧
      (∀ t ∈ l, t.length = d.toNat ∧ t.sum ≤ k.toNat) ∧
      (∀ l', monomialBasis d k = .ok l' → l' = l) := by
  refine ⟨expTuples d.toNat k.toNat, ?_, expTuples_length _ _,
    expTuples_nodup _ _, fun t ht => mem_expTuples ht, ?_⟩
  · unfold monomialBasis
    rw [if_neg (by omega)]
  · intro l' hl'
    unfold monomialBasis at hl'
    rw [if_neg (by omega)] at hl'
    exact ((Except.ok.injEq _ _).mp hl').symm

theorem monomialBasis_spec_witness :
    ∃ l : List Mon,
      monomialBasis 2 2 = .ok l ∧
      l.length = Nat.choose ((2 : Int).toNat + (2 : Int).toNat) (2 : Int).toNat ∧
      l.Nodup ∧
      (∀ t ∈ l, t.length = (2 : Int).toNat ∧ t.sum ≤ (2 : Int).toNat) ∧
      (∀ l', monomialBasis 2 2 = .ok l' → l' = l) :=
  monomialBasis_spec 2 2 (by decide) (by decide)

/-- **C7**: the basis builder fails, and fails with `InvalidDegree`, exactly
when `k < 0` or `d ≤ 0`; for every other input it succeeds, returning the
enumerated tuple list. -/
theorem monomialBasis_invalidDegree :
    ∀ d k : Int,
      (monomialBasis d k = .error .InvalidDegree ↔ k < 0 ∨ d ≤ 0) ∧
      (monomialBasis d k = .error .InvalidDegree ∨
        monomialBasis d k = .ok (expTuples d.toNat k.toNat)) := by
  intro d k
  unfold monomialBasis
  by_cases h : k < 0 ∨ d ≤ 0
  · rw [if_pos h]
    simp [h]
  · rw [if_neg h]
    simp [h]

theorem cellMonomial_mem_varPool {basis : List Mon} {gs : List Poly}
    {cell : Cell} (h : WFCell basis gs cell) :
    cellMonomial cell ∈ varPool basis gs := by
  rw [varPool, List.mem_dedup]
  cases cell with
  | moment a b =>
    obtain ⟨ha, hb⟩ := h
    refine List.mem_append_left _ ?_
    simp only [momentProducts, List.mem_flatMap, List.mem_map]
    exact ⟨a, ha, b, hb, rfl⟩
  | localizing c a b =>
    obtain ⟨⟨g, hg, t, ht, htc⟩, ha, hb⟩ := h
    refine List.mem_append_right _ ?_
    simp only [List.mem_flatMap]
    refine ⟨g, hg, ?_⟩
    simp only [locProducts, List.mem_flatMap, List.mem_map]
    refine ⟨t, ht, monMul a b, ?_, by simp [cellMonomial, htc]⟩
    simp only [momentProducts, List.mem_flatMap, List.mem_map]
    exact ⟨a, ha, b, hb, rfl⟩

/-- **C3**: in the assembled relaxation, two cells (of the moment matrix or of
a localizing matrix) are wired to the same shared decision variable exactly
when their moment monomials are equal: equal products share one variable, and
no single moment is represented by two distinct decision variables. -/
theorem assembler_consolidates (basis : List Mon) (gs : List Poly)
    (c₁ c₂ : Cell) (h₁ : WFCell basis gs c₁) (h₂ : WFCell basis gs c₂) :
    cellVar basis gs c₁ = cellVar basis gs c₂ ↔
      cellMonomial c₁ = cellMonomial c₂ := by
  unfold cellVar
  exact List.indexOf_inj (cellMonomial_mem_varPool h₁)
    (cellMonomial_mem_varPool h₂)

theorem assembler_consolidates_witness :
    cellVar (expTuples 2 1) [] (.moment [0, 1] [1, 0])
        = cellVar (expTuples 2 1) [] (.moment [1, 0] [0, 1]) ↔
      cellMonomial (.moment [0, 1] [1, 0])
        = cellMonomial (.moment [1, 0] [0, 1]) :=
  assembler_consolidates (expTuples 2 1) [] (.moment [0, 1] [1, 0])
    (.moment [1, 0] [0, 1]) (by constructor <;> decide) (by constructor <;> decide)

/-- **C8**: for every input, the assembler's list of linear equality
constraints contains the normalization condition (the zero-degree moment
equals 1), in addition to the equality derived from each moment-equality
constraint. -/
theorem assembleEqualities_normalization (d : Nat) (hs : List Poly) :
    normalizationEq d ∈ assembleEqualities d hs ∧
    ∀ h ∈ hs, momentEqualityEq h ∈ assembleEqualities d hs := by
  refine ⟨List.mem_cons_self _ _, fun h hh => ?_⟩
  exact List.mem_cons_of_mem _ (List.mem_map_of_mem _ hh)

theorem assembleEqualities_normalization_witness :
    normalizationEq 1 ∈ assembleEqualities 1 [[(1, [1])]] ∧
    ∀ h ∈ [[((1 : ℚ), [1])]], momentEqualityEq h ∈ assembleEqualities 1 [[(1, [1])]] :=
  assembleEqualities_normalization 1 [[(1, [1])]]

theorem runDriver_fix (cfg : DriverConfig) (o : Oracle) (s : DriverState)
    (h : step cfg o s = s) : ∀ n, runDriver cfg o n s = s := by
  intro n
  induction n with
  | zero => rfl
  | succ n ih =>
    calc runDriver cfg o (n + 1) s = runDriver cfg o n (step cfg o s) := rfl
      _ = runDriver cfg o n s := by rw [h]
      _ = s := ih

/-- **C4**: in the driver's state machine a solve that reports `infeasible` is
terminal: the driver moves to `INFEASIBLE`, records the status for the caller,
and `INFEASIBLE` states are fixed points of the transition function (never
retried).  A solve reporting `unbounded` or `unknown` with rounds remaining
moves to `ESCALATING`, from which the degree is incremented and assembly
repeats; with the round budget exhausted the driver instead terminates in
`EXHAUSTED`, keeping the best available moment matrix and flagged as not
converged. -/
theorem driver_transitions (cfg : DriverConfig) (o : Oracle) (s : DriverState)
    (hph : s.phase = .SOLVING) :
    (o.status s.degree = .infeasible →
      (step cfg o s).phase = .INFEASIBLE ∧
      (step cfg o s).lastStatus = some SolverStatus.infeasible ∧
      (∀ s', s'.phase = .INFEASIBLE → step cfg o s' = s')) ∧
    ((o.status s.degree = .unbounded ∨ o.status s.degree = .unknown) →
      (s.round + 1 < cfg.maxRounds →
        (step cfg o s).phase = .ESCALATING ∧
        (∀ s', s'.phase = .ESCALATING →
          (step cfg o s').phase = .ASSEMBLING ∧
          (step cfg o s').degree = s'.degree + 1)) ∧
      (cfg.maxRounds ≤ s.round + 1 →
        (step cfg o s).phase = .EXHAUSTED ∧
        (step cfg o s).converged = false ∧
        (step cfg o s).MM = some (o.matrix s.degree))) := by
  obtain ⟨ph, r, dg, ls, cv, mm⟩ := s
  have hph' : ph = .SOLVING := hph
  subst hph'
  constructor
  · intro hst
    refine ⟨?_, ?_, ?_⟩
    · simp only [step, hst]
    · simp only [step, hst]
    · rintro ⟨ph', r', dg', ls', cv', mm'⟩ h'
      have h'' : ph' = .INFEASIBLE := h'
      subst h''
      rfl
  · intro hst
    constructor
    · intro hlt
      constructor
      · rcases hst with hst | hst <;> simp only [step, hst, if_pos hlt]
      · rintro ⟨ph', r', dg', ls', cv', mm'⟩ h'
        have h'' : ph' = .ESCALATING := h'
        subst h''
        exact ⟨rfl, rfl⟩
    · intro hge
      have hge' : cfg.maxRounds ≤ r + 1 := hge
      have hnlt : ¬ (r + 1 < cfg.maxRounds) := by omega
      rcases hst with hst | hst <;> simp only [step, hst, if_neg hnlt] <;>
        exact ⟨trivial, trivial, trivial⟩

theorem driver_transitions_witness :
    (step ⟨1⟩ (constOracle .infeasible) solvingState).phase = .INFEASIBLE :=
  ((driver_transitions ⟨1⟩ (constOracle .infeasible) solvingState rfl).1 rfl).1

/-- **C10**: a call to `solve_GMP` without an explicit `rounds` argument uses
the default round budget 1, and the driver then performs exactly one
relaxation round before the result is returned, whatever the solver
reports. -/
theorem solve_GMP_default_one_round (o : Oracle) (d0 : Nat) (xs : List String) :
    solve_GMP o d0 xs = solve_GMP o d0 xs 1 ∧
    (finalDriverState o d0 1).round = 1 := by
  refine ⟨rfl, ?_⟩
  show (runDriver ⟨1⟩ o (4 * 1 + 4) (initState d0)).round = 1
  have e2 : runDriver ⟨1⟩ o (4 * 1 + 4) (initState d0)
      = runDriver ⟨1⟩ o 6
        { phase := .SOLVING, round := 0, degree := d0,
          lastStatus := none, converged := false, MM := none } := by rfl
  rw [e2]
  have e3 : runDriver ⟨1⟩ o 6
        { phase := .SOLVING, round := 0, degree := d0,
          lastStatus := none, converged := false, MM := none }
      = runDriver ⟨1⟩ o 5 (step ⟨1⟩ o
        { phase := .SOLVING, round := 0, degree := d0,
          lastStatus := none, converged := false, MM := none }) := by rfl
  rw [e3]
  cases h : o.status d0 with
  | infeasible =>
    simp only [step, h]
    rfl
  | optimal =>
    simp only [step, h]
    cases hr : o.rankOk d0 with
    | true =>
      have e4 : ∀ mm, runDriver ⟨1⟩ o 5
          { phase := .CHECKING, round := 0 + 1, degree := d0,
            lastStatus := some SolverStatus.optimal, converged := false, MM := mm }
          = runDriver ⟨1⟩ o 4 (step ⟨1⟩ o
          { phase := .CHECKING, round := 0 + 1, degree := d0,
            lastStatus := some SolverStatus.optimal, converged := false, MM := mm }) :=
        fun mm => by rfl
      rw [e4]
      simp only [step, hr]
      rfl
    | false =>
      have e4 : ∀ mm, runDriver ⟨1⟩ o 5
          { phase := .CHECKING, round := 0 + 1, degree := d0,
            lastStatus := some SolverStatus.optimal, converged := false, MM := mm }
          = runDriver ⟨1⟩ o 4 (step ⟨1⟩ o
          { phase := .CHECKING, round := 0 + 1, degree := d0,
            lastStatus := some SolverStatus.optimal, converged := false, MM := mm }) :=
        fun mm => by rfl
      rw [e4]
      simp only [step, hr]
      rfl
  | unbounded =>
    simp only [step, h]
    rfl
  | unknown =>
    simp only [step, h]
    rfl

/-- **C9**: every call to `solve_GMP` returns a mapping holding the final
round's moment matrix under the key `MM` and the ordered problem variables
under the key `x`, and those two values feed directly into the first two
arguments of `extract_solutions_lasserre`. -/
theorem solve_GMP_result_keys (o : Oracle) (d0 : Nat) (xs : List String)
    (rounds : Nat) :
    ∃ M vs,
      (solve_GMP o d0 xs rounds).lookup "MM" = some (.matrix M) ∧
      (solve_GMP o d0 xs rounds).lookup "x" = some (.vars vs) ∧
      M = (finalDriverState o d0 rounds).MM.getD (o.matrix d0) ∧
      vs = xs ∧
      (∀ t maxdeg tol, extract_solutions_lasserre M vs t maxdeg tol
          = extract_solutions_lasserre
              ((finalDriverState o d0 rounds).MM.getD (o.matrix d0)) xs t maxdeg tol) :=
  ⟨(finalDriverState o d0 rounds).MM.getD (o.matrix d0), xs,
    rfl, rfl, rfl, rfl, fun _ _ _ => rfl⟩

/-- **C5**: every extraction request whose degree `t` exceeds half the
relaxation degree of the given moment matrix fails with `InsufficientRank`
instead of returning coordinates. -/
theorem extract_insufficientRank (M : MomentMatrix) (xs : List String)
    (t : Nat) (maxdeg : Option Nat) (tol : ℚ)
    (h : M.relaxDegree / 2 < t) :
    extract_solutions_lasserre M xs t maxdeg tol = .error .InsufficientRank := by
  unfold extract_solutions_lasserre
  rw [if_pos h]

theorem extract_insufficientRank_witness :
    extract_solutions_lasserre firstExampleMM ["x", "y"] 2 none (1 / 1000000)
      = .error .InsufficientRank :=
  extract_insufficientRank firstExampleMM ["x", "y"] 2 none (1 / 1000000)
    (by decide)

/-- **C6**: the extractor is a pure function of the moment matrix, variable
list, requested degree and tolerance — two successful calls on the same
inputs return the same numerical rank and the same recovered coordinates. -/
theorem extract_idempotent (M : MomentMatrix) (xs : List String) (t : Nat)
    (maxdeg : Option Nat) (tol : ℚ) (r₁ r₂ : ExtractResult)
    (h₁ : extract_solutions_lasserre M xs t maxdeg tol = .ok r₁)
    (h₂ : extract_solutions_lasserre M xs t maxdeg tol = .ok r₂) :
    r₁.rank = r₂.rank ∧ r₁.coords = r₂.coords := by
  rw [h₁] at h₂
  injection h₂ with h₃
  subst h₃
  exact ⟨rfl, rfl⟩

theorem extract_idempotent_witness :
    (⟨1, some [("x", [2]), ("y", [2])]⟩ : ExtractResult).rank
        = (⟨1, some [("x", [2]), ("y", [2])]⟩ : ExtractResult).rank ∧
    (⟨1, some [("x", [2]), ("y", [2])]⟩ : ExtractResult).coords
        = (⟨1, some [("x", [2]), ("y", [2])]⟩ : ExtractResult).coords :=
  extract_idempotent firstExampleMM ["x", "y"] 1 none (1 / 1000000)
    ⟨1, some [("x", [2]), ("y", [2])]⟩ ⟨1, some [("x", [2]), ("y", [2])]⟩
    (by with_unfolding_all rfl) (by with_unfolding_all rfl)

/-- **C2**: in the notebook's first example (minimize `x² + y²` subject to
`x + y ≥ 4` and `x + y ≤ 4`), the recorded round-1 output reports solver
status `optimal` with moment-matrix rank 1; the extractor applied to the exact
round-1 optimal moment matrix (the moments of the Dirac measure at `(2,2)`)
recovers rank 1 and exactly the single point `(2, 2)`; and the coordinates the
notebook's run recorded lie within `1e-4` of `2` in both variables. -/
theorem firstExample_round1_extraction :
    firstExampleRound1.status = .optimal ∧
    firstExampleRound1.round = 1 ∧
    firstExampleRound1.rank = 1 ∧
    extract_solutions_lasserre firstExampleMM ["x", "y"] 1 none (1 / 1000000)
      = .ok ⟨1, some [("x", [2]), ("y", [2])]⟩ ∧
    |firstExampleXY.1 - 2| ≤ 1 / 10000 ∧ |firstExampleXY.2 - 2| ≤ 1 / 10000 := by
  refine ⟨rfl, rfl, rfl, by with_unfolding_all rfl, ?_, ?_⟩ <;>
    · rw [abs_le]
      constructor <;> norm_num [firstExampleXY]

end Mompy
